import Mathlib

/-!
Verification of the PersoniFi statement-normalization engine and its Node.js
upload layer.

The repository snapshot contains the Express server (`server.js`), the React
frontend and the project documentation, but not `python/transaction_parser.py`,
the statement-normalization engine that `server.js` invokes.  The engine is
therefore modelled here from the specification (`spec.md`), faithful to its
words; the definitions for the upload layer (`fileFilter`) are embedded from
`server.js` directly.

Everything is executable: concrete scenarios from the specification are
evaluated with `decide`/`rfl`.
-/

set_option autoImplicit false

namespace PersoniFi

/- ### Basic character and string helpers -/

/-- Modelled from the spec: whitespace test used by the engine's trimming and
normalization steps (the engine `transaction_parser.py` is absent from the
snapshot). -/
def isWs (c : Char) : Bool :=
  c = ' ' || c = '\t' || c = '\n' || c = '\r'

/-- Modelled from the spec: decimal-digit test used by the value normalizers. -/
def isDigitCh (c : Char) : Bool :=
  48 ≤ c.toNat && c.toNat ≤ 57

/-- Modelled from the spec: numeric value of a digit character. -/
def dval (c : Char) : Nat := c.toNat - 48

/-- Modelled from the spec: trim leading and trailing whitespace. -/
def trimChars (cs : List Char) : List Char :=
  ((cs.dropWhile isWs).reverse.dropWhile isWs).reverse

/-- Modelled from the spec: trim a string. -/
def trimStr (s : String) : String :=
  String.mk (trimChars s.data)

/-- Modelled from the spec: collapse whitespace runs to single spaces; the
flag records whether the previous character was whitespace. -/
def collapseGo : Bool → List Char → List Char
  | _, [] => []
  | prevWs, c :: t =>
    if isWs c then
      (if prevWs then collapseGo true t else ' ' :: collapseGo true t)
    else c :: collapseGo false t

/-- Modelled from the spec: header normalization — lowercase, trim, collapse
whitespace (spec §4.3). -/
def normalizeHeader (s : String) : String :=
  String.mk (collapseGo true (trimChars (s.data.map Char.toLower)))

/-- Boolean prefix test on character lists. -/
def isPrefixCh : List Char → List Char → Bool
  | [], _ => true
  | _ :: _, [] => false
  | a :: as, b :: bs => (a = b) && isPrefixCh as bs

/-- Boolean substring (contiguous) test on character lists. -/
def isSubChars (needle : List Char) : List Char → Bool
  | [] => needle.isEmpty
  | c :: t => isPrefixCh needle (c :: t) || isSubChars needle t

/-- Split a character list at every character satisfying `p`; empty groups are
kept (so `".."` splits on `'.'` into three empty groups). -/
def splitOnPred (p : Char → Bool) : List Char → List (List Char)
  | [] => [[]]
  | c :: rest =>
    if p c then [] :: splitOnPred p rest
    else
      match splitOnPred p rest with
      | [] => [[c]]
      | g :: gs => (c :: g) :: gs

/-- Split at a single separator character. -/
def splitOnChar (sep : Char) (cs : List Char) : List (List Char) :=
  splitOnPred (fun c => c = sep) cs

/- ### Calendar dates -/

/-- A calendar date as produced by the date normalizer (spec §3,
`TransactionRecord.date`). -/
structure CalDate where
  year : Nat
  month : Nat
  day : Nat
deriving DecidableEq, Repr

/-- Modelled from the spec: Gregorian leap-year rule, needed to reject
`day > days-in-month` (spec §4.4). -/
def isLeap (y : Nat) : Bool :=
  y % 4 = 0 && (y % 100 ≠ 0 || y % 400 = 0)

/-- Modelled from the spec: days in a month of a given year. -/
def daysInMonth (y m : Nat) : Nat :=
  if m = 2 then (if isLeap y then 29 else 28)
  else if m = 4 || m = 6 || m = 9 || m = 11 then 30
  else 31

/-- Modelled from the spec: a valid calendar date has month 1–12 and day
within the month's length (spec §4.4). -/
def validDate (y m d : Nat) : Bool :=
  1 ≤ m && m ≤ 12 && 1 ≤ d && d ≤ daysInMonth y m

/-- Parse exactly four digit characters into a number (the `YYYY` field of
every date pattern). -/
def parse4Digits : List Char → Option Nat
  | [a, b, c, d] =>
    if isDigitCh a && isDigitCh b && isDigitCh c && isDigitCh d then
      some (dval a * 1000 + dval b * 100 + dval c * 10 + dval d)
    else none
  | _ => none

/-- Parse one or two digit characters (the `MM`/`DD` fields). -/
def parse12Digits : List Char → Option Nat
  | [a] => if isDigitCh a then some (dval a) else none
  | [a, b] => if isDigitCh a && isDigitCh b then some (dval a * 10 + dval b) else none
  | _ => none

/-- Modelled from the spec: the ISO `YYYY-MM-DD` pattern; it must fully
consume the cell (spec §4.4). -/
def isoRaw (cs : List Char) : Option (Nat × Nat × Nat) :=
  match splitOnChar '-' cs with
  | [ys, ms, ds] =>
    (parse4Digits ys).bind fun y =>
      (parse12Digits ms).bind fun m =>
        (parse12Digits ds).map fun d => (y, m, d)
  | _ => none

/-- Modelled from the spec: the `MM/DD/YYYY` pattern. -/
def mdySlashRaw (cs : List Char) : Option (Nat × Nat × Nat) :=
  match splitOnChar '/' cs with
  | [ms, ds, ys] =>
    (parse4Digits ys).bind fun y =>
      (parse12Digits ms).bind fun m =>
        (parse12Digits ds).map fun d => (y, m, d)
  | _ => none

/-- Modelled from the spec: the `DD/MM/YYYY` pattern. -/
def dmySlashRaw (cs : List Char) : Option (Nat × Nat × Nat) :=
  match splitOnChar '/' cs with
  | [ds, ms, ys] =>
    (parse4Digits ys).bind fun y =>
      (parse12Digits ms).bind fun m =>
        (parse12Digits ds).map fun d => (y, m, d)
  | _ => none

/-- Modelled from the spec: the `MM-DD-YYYY` pattern. -/
def mdyDashRaw (cs : List Char) : Option (Nat × Nat × Nat) :=
  match splitOnChar '-' cs with
  | [ms, ds, ys] =>
    (parse4Digits ys).bind fun y =>
      (parse12Digits ms).bind fun m =>
        (parse12Digits ds).map fun d => (y, m, d)
  | _ => none

/-- Month names and three-letter abbreviations for the textual-month
patterns, paired with the month number. -/
def monthNames : List (List Char × Nat) :=
  [("january".data, 1), ("february".data, 2), ("march".data, 3),
   ("april".data, 4), ("may".data, 5), ("june".data, 6), ("july".data, 7),
   ("august".data, 8), ("september".data, 9), ("october".data, 10),
   ("november".data, 11), ("december".data, 12),
   ("jan".data, 1), ("feb".data, 2), ("mar".data, 3), ("apr".data, 4),
   ("jun".data, 6), ("jul".data, 7), ("aug".data, 8), ("sep".data, 9),
   ("oct".data, 10), ("nov".data, 11), ("dec".data, 12)]

/-- Look up a (case-insensitive) month-name token. -/
def monthIndex (tok : List Char) : Option Nat :=
  (monthNames.find? fun p => decide (p.1 = tok.map Char.toLower)).map (·.2)

/-- Modelled from the spec: common textual-month variants — `Mon DD, YYYY`
and `DD Mon YYYY`, tokens split on spaces and commas. -/
def textualRaw (cs : List Char) : Option (Nat × Nat × Nat) :=
  match (splitOnPred (fun c => c = ' ' || c = ',') cs).filter (fun t => !t.isEmpty) with
  | [a, b, c] =>
    match monthIndex a, parse12Digits b, parse4Digits c with
    | some m, some d, some y => some (y, m, d)
    | _, _, _ =>
      match parse12Digits a, monthIndex b, parse4Digits c with
      | some d, some m, some y => some (y, m, d)
      | _, _, _ => none
  | _ => none

/-- Modelled from the spec: the ordered list of date format patterns —
ISO `YYYY-MM-DD`, then `MM/DD/YYYY`, then `DD/MM/YYYY`, then `MM-DD-YYYY`,
then textual-month variants (spec §4.4). -/
def datePatterns : List (List Char → Option (Nat × Nat × Nat)) :=
  [isoRaw, mdySlashRaw, dmySlashRaw, mdyDashRaw, textualRaw]

/-- Modelled from the spec: try patterns in order; the first one that fully
consumes the cell and yields a valid calendar date wins (spec §4.4). -/
def tryDate : List (List Char → Option (Nat × Nat × Nat)) → List Char → Option CalDate
  | [], _ => none
  | p :: ps, cs =>
    match p cs with
    | some (y, m, d) => if validDate y m d then some ⟨y, m, d⟩ else tryDate ps cs
    | none => tryDate ps cs

/-- Modelled from the spec: the date normalizer — trim the cell and try the
ordered pattern list; `none` models `UnparseableDate` (spec §4.4). -/
def parseDate (s : String) : Option CalDate :=
  tryDate datePatterns (trimChars s.data)

/- ### Amount normalizer -/

/-- Modelled from the spec: currency symbols and whitespace stripped in the
first step of the amount normalizer (spec §4.4). -/
def isCurrencyOrSpace (c : Char) : Bool :=
  c = '$' || c = '€' || c = '£' || c = '¥' || isWs c

/-- Modelled from the spec: step 1 — strip currency symbols and whitespace. -/
def stripCur (cs : List Char) : List Char :=
  cs.filter fun c => !isCurrencyOrSpace c

/-- Modelled from the spec: step 2 — a parenthesized value `(123.45)` is
negative; returns the negativity flag and the unwrapped characters. -/
def stripParens (cs : List Char) : Bool × List Char :=
  match cs with
  | '(' :: rest => if rest.getLast? = some ')' then (true, rest.dropLast) else (false, cs)
  | _ => (false, cs)

/-- Modelled from the spec: step 3 — detect a leading or trailing sign. -/
def stripSign (cs : List Char) : Bool × List Char :=
  match cs with
  | '-' :: rest => (true, rest)
  | '+' :: rest => (false, rest)
  | _ =>
    match cs.getLast? with
    | some '-' => (true, cs.dropLast)
    | some '+' => (false, cs.dropLast)
    | _ => (false, cs)

/-- All characters are decimal digits. -/
def allDigits (cs : List Char) : Bool := cs.all isDigitCh

/-- Decimal value of a digit string. -/
def digitsVal (cs : List Char) : Nat :=
  cs.foldl (fun a c => a * 10 + dval c) 0

/-- Modelled from the spec: round a fractional tail to two digits,
round-half-even.  `f2` is the value of the first two fractional digits;
`rest` is the remaining fractional digits. -/
def roundHalfEven (f2 : Nat) (rest : List Char) : Nat :=
  if rest.isEmpty then f2
  else
    let r := digitsVal rest
    let half := 5 * 10 ^ (rest.length - 1)
    if r < half then f2
    else if half < r then f2 + 1
    else if f2 % 2 = 0 then f2 else f2 + 1

/-- Modelled from the spec: parse the integer/fraction groups obtained by
splitting at the decimal point. -/
def parseFixed2Groups : List (List Char) → Option Nat
  | [ip] => if !ip.isEmpty && allDigits ip then some (digitsVal ip * 100) else none
  | [ip, fp] =>
    if allDigits ip && allDigits fp && (!ip.isEmpty || !fp.isEmpty) then
      some (digitsVal ip * 100 +
        roundHalfEven (dval (fp.getD 0 '0') * 10 + dval (fp.getD 1 '0')) (fp.drop 2))
    else none
  | _ => none

/-- Modelled from the spec: step 5 — parse digits plus an optional decimal
point into non-negative cents (a fixed-point decimal with two fractional
digits, round-half-even beyond two digits). -/
def parseFixed2 (cs : List Char) : Option Nat :=
  parseFixed2Groups (splitOnChar '.' cs)

/-- The sign of an amount cell: negative when parenthesized or when a
leading/trailing minus sign is present. -/
def amountNeg (cs : List Char) : Bool :=
  (stripParens (stripCur cs)).1 || (stripSign (stripParens (stripCur cs)).2).1

/-- The digit characters of an amount cell after stripping currency symbols,
whitespace, parentheses, signs and thousands separators. -/
def amountCleaned (cs : List Char) : List Char :=
  (stripSign (stripParens (stripCur cs)).2).2.filter fun c => !(c = ',')

/-- Modelled from the spec: the amount normalizer over characters — strip
currency symbols and whitespace, unwrap a parenthesized negative, detect a
leading/trailing sign, strip thousands separators, parse into fixed-point
cents; `none` models `UnparseableAmount` (spec §4.4). -/
def parseAmountChars (cs0 : List Char) : Option Int :=
  (parseFixed2 (amountCleaned cs0)).map fun n =>
    if amountNeg cs0 then -(n : Int) else (n : Int)

/-- Modelled from the spec: the amount normalizer; the result is in cents
(`some 12345` is `123.45`; spec §4.4). -/
def parseAmount (s : String) : Option Int :=
  parseAmountChars s.data

/-- Whether a string contains any decimal digit character. -/
def hasDigit (s : String) : Bool := s.data.any isDigitCh

/- ### Column classifier -/

/-- The semantic roles a column can be classified into (spec §3). -/
inductive Role where
  | date
  | amount
  | merchant
  | category
deriving DecidableEq, Repr

/-- Modelled from the spec: the per-role keyword sets (spec §4.3). -/
def roleKeywords : Role → List String
  | .date => ["date", "transaction date", "posted date", "trans date", "payment date"]
  | .amount => ["amount", "transaction amount", "debit", "credit", "posted amount"]
  | .merchant => ["description", "merchant", "transaction description", "payee", "memo"]
  | .category => ["category", "transaction category", "type", "transaction type"]

/-- Modelled from the spec: a header matches a role if its normalized form
equals, or contains as a substring, any keyword of that role (equality is
substring containment of the whole; spec §4.3). -/
def matchesRole (h : String) (r : Role) : Bool :=
  (roleKeywords r).any fun kw => isSubChars kw.data (normalizeHeader h).data

/-- Modelled from the spec: the role a header is assigned to — the first
matching role in the fixed priority order `date > amount > merchant >
category` (spec §4.3). -/
def priorityRole (h : String) : Option Role :=
  if matchesRole h .date then some .date
  else if matchesRole h .amount then some .amount
  else if matchesRole h .merchant then some .merchant
  else if matchesRole h .category then some .category
  else none

/-- A partial assignment of roles to (column index, header label) pairs. -/
def RoleAssign : Type := Role → Option (Nat × String)

/-- The empty assignment. -/
def emptyAssign : RoleAssign := fun _ => none

/-- Update one role of an assignment. -/
def setRole (pm : RoleAssign) (r : Role) (v : Nat × String) : RoleAssign :=
  fun r2 => if r2 = r then some v else pm r2

/-- Helper: record the header for role `r` unless that role is already
resolved (the second argument is the current value of `pm r`). -/
def assignSet (i : Nat) (h : String) (pm : RoleAssign) (r : Role) :
    Option (Nat × String) → RoleAssign
  | some _ => pm
  | none => setRole pm r (i, h)

/-- Helper: dispatch on the priority role of a header. -/
def assignRole (i : Nat) (h : String) (pm : RoleAssign) : Option Role → RoleAssign
  | none => pm
  | some r => assignSet i h pm r (pm r)

/-- Modelled from the spec: process one header — assign it to its priority
role unless that role is already resolved (spec §4.3). -/
def assignOne (i : Nat) (h : String) (pm : RoleAssign) : RoleAssign :=
  assignRole i h pm (priorityRole h)

/-- Modelled from the spec: process the headers left to right starting at
column index `i` (spec §4.3). -/
def assignHeaders : Nat → List String → RoleAssign → RoleAssign
  | _, [], pm => pm
  | i, h :: t, pm => assignHeaders (i + 1) t (assignOne i h pm)

/-- The leftmost header (from index `i` on) whose priority role is `r`. -/
def firstMatchFrom (r : Role) : Nat → List String → Option (Nat × String)
  | _, [] => none
  | i, h :: t => if priorityRole h = some r then some (i, h) else firstMatchFrom r (i + 1) t

/-- The resolved column mapping: each required role maps to the index and
label of its column; `category` is optional (spec §3). -/
structure ColumnMapping where
  date : Nat × String
  amount : Nat × String
  merchant : Nat × String
  category : Option (Nat × String)
deriving DecidableEq, Repr

/-- The failure kinds of the engine (spec §7). -/
inductive EngineFailure where
  | encodingExhausted
  | emptyFile
  | noHeaderRow
  | missingRequiredColumn (r : Role)
  | allRowsInvalid
deriving DecidableEq, Repr

/-- Modelled from the spec: the column classifier — assign headers to roles,
then require `date`, `amount` and `merchant`; `category` is optional
(spec §4.3). -/
def classifyColumns (headers : List String) : Except EngineFailure ColumnMapping :=
  match assignHeaders 0 headers emptyAssign .date with
  | none => .error (.missingRequiredColumn .date)
  | some dcol =>
    match assignHeaders 0 headers emptyAssign .amount with
    | none => .error (.missingRequiredColumn .amount)
    | some acol =>
      match assignHeaders 0 headers emptyAssign .merchant with
      | none => .error (.missingRequiredColumn .merchant)
      | some mcol => .ok ⟨dcol, acol, mcol, assignHeaders 0 headers emptyAssign .category⟩

/- ### Row assembler and reporter -/

/-- A canonical transaction record (spec §3); `amount` is in cents. -/
structure TransactionRecord where
  date : CalDate
  merchant : String
  amount : Int
  category : Option String
deriving DecidableEq, Repr

/-- The per-row failure kinds (spec §7). -/
inductive RowErrorKind where
  | unparseableDate
  | unparseableAmount
  | emptyMerchant
deriving DecidableEq, Repr

/-- A diagnostic retained for a data row that failed normalization
(spec §3). -/
structure RowDiagnostic where
  rowIndex : Nat
  rawCells : List String
  errorKind : RowErrorKind
deriving DecidableEq, Repr

/-- Counts reported in the success metadata (spec §6). -/
structure ParseStats where
  totalTransactions : Nat
  skippedRows : Nat
deriving DecidableEq, Repr

/-- The outcome of a parse call (spec §3). -/
inductive ParseOutcome where
  | success (records : List TransactionRecord) (mapping : ColumnMapping)
      (stats : ParseStats) (diags : List RowDiagnostic)
  | failure (reason : EngineFailure) (diags : List RowDiagnostic)
deriving DecidableEq, Repr

/-- Modelled from the spec: extract one data row using the resolved mapping —
date, amount, then trimmed non-empty merchant; `category` is the trimmed
optional cell (spec §4.5). -/
def extractRow (m : ColumnMapping) (row : List String) : Except RowErrorKind TransactionRecord :=
  match parseDate (row.getD m.date.1 "") with
  | none => .error .unparseableDate
  | some d =>
    match parseAmount (row.getD m.amount.1 "") with
    | none => .error .unparseableAmount
    | some amt =>
      if trimStr (row.getD m.merchant.1 "") = "" then .error .emptyMerchant
      else
        .ok { date := d, merchant := trimStr (row.getD m.merchant.1 ""), amount := amt,
              category := m.category.bind fun c =>
                if trimStr (row.getD c.1 "") = "" then none
                else some (trimStr (row.getD c.1 "")) }

/-- Modelled from the spec: process the data rows independently, collecting
successful records in input order and diagnostics for failing rows
(spec §4.5). -/
def processRows (m : ColumnMapping) : Nat → List (List String) →
    List TransactionRecord × List RowDiagnostic
  | _, [] => ([], [])
  | i, row :: rest =>
    let r := processRows m (i + 1) rest
    match extractRow m row with
    | .ok rec => (rec :: r.1, r.2)
    | .error e => (r.1, ⟨i, row, e⟩ :: r.2)

/-- Modelled from the spec: the row assembler — if zero rows succeed the
outcome escalates to `AllRowsInvalid`, otherwise a success with the records,
the mapping and the counts (spec §4.5). -/
def assembleRows (m : ColumnMapping) (rows : List (List String)) : ParseOutcome :=
  let rd := processRows m 0 rows
  if rd.1.isEmpty then .failure .allRowsInvalid rd.2
  else .success rd.1 m ⟨rd.1.length, rd.2.length⟩ rd.2

/-- A row is blank when all its cells trim to the empty string (spec §4.2). -/
def isBlankRow (row : List String) : Bool :=
  row.all fun c => trimStr c = ""

/-- Modelled from the spec: pad a row on the right with empty cells to the
header width, truncating longer rows (spec §4.2). -/
def padTo (n : Nat) (row : List String) : List String :=
  row.take n ++ List.replicate (n - row.length) ""

/-- Modelled from the spec: the data rows that reach classification — blank
rows dropped, the rest padded/truncated to the header width (spec §4.2). -/
def preparedRows (header : List String) (rest : List (List String)) : List (List String) :=
  (rest.filter fun r => !isBlankRow r).map (padTo header.length)

/-- Modelled from the spec: parse a rectangular grid of cells whose first row
is the header — structural failures first, then classification, then row
assembly (spec §4.2, §4.5). -/
def parseGrid : List (List String) → ParseOutcome
  | [] => .failure .noHeaderRow []
  | header :: rest =>
    let rows := preparedRows header rest
    if rows.isEmpty then .failure .emptyFile []
    else
      match classifyColumns header with
      | .error e => .failure e []
      | .ok m => assembleRows m rows

/- ### Serialization of the parse outcome (spec §6) -/

/-- A JSON value; `dec2` is a number with two fixed fractional digits,
stored in cents (the engine's amounts). -/
inductive Json where
  | null
  | bool (b : Bool)
  | int (n : Int)
  | dec2 (cents : Int)
  | str (s : String)
  | arr (elems : List Json)
  | obj (fields : List (String × Json))

/-- A digit character from a digit value. -/
def digitChar : Nat → Char
  | 0 => '0' | 1 => '1' | 2 => '2' | 3 => '3' | 4 => '4'
  | 5 => '5' | 6 => '6' | 7 => '7' | 8 => '8' | 9 => '9'
  | _ => 'X'

/-- Modelled from the spec: format a calendar date as `YYYY-MM-DD`
(zero-padded; spec §6). -/
def formatDate (d : CalDate) : String :=
  String.mk
    [digitChar (d.year / 1000), digitChar (d.year / 100 % 10),
     digitChar (d.year / 10 % 10), digitChar (d.year % 10), '-',
     digitChar (d.month / 10), digitChar (d.month % 10), '-',
     digitChar (d.day / 10), digitChar (d.day % 10)]

/-- Whether a string has the `YYYY-MM-DD` shape: ten characters, digits in
the date positions, dashes at positions 4 and 7. -/
def isIsoDateString (s : String) : Bool :=
  match s.data with
  | [y1, y2, y3, y4, h1, m1, m2, h2, d1, d2] =>
    isDigitCh y1 && isDigitCh y2 && isDigitCh y3 && isDigitCh y4 &&
    h1 = '-' && isDigitCh m1 && isDigitCh m2 && h2 = '-' &&
    isDigitCh d1 && isDigitCh d2
  | _ => false

/-- Modelled from the spec: serialize one transaction record — date string,
merchant, amount number, category string or null (spec §6). -/
def serializeRecord (r : TransactionRecord) : Json :=
  .obj [("date", .str (formatDate r.date)),
        ("merchant", .str r.merchant),
        ("amount", .dec2 r.amount),
        ("category", r.category.elim Json.null Json.str)]

/-- Modelled from the spec: serialize the resolved column mapping
(spec §6). -/
def serializeMapping (m : ColumnMapping) : Json :=
  .obj [("date", .str m.date.2),
        ("amount", .str m.amount.2),
        ("merchant", .str m.merchant.2),
        ("category", (m.category.map (·.2)).elim Json.null Json.str)]

/-- The name of a role, used in error messages. -/
def roleName : Role → String
  | .date => "date"
  | .amount => "amount"
  | .merchant => "merchant"
  | .category => "category"

/-- Modelled from the spec: the human-readable reason attached to a failure
(spec §7). -/
def failureMessage : EngineFailure → String
  | .encodingExhausted => "Could not decode file with any supported encoding"
  | .emptyFile => "File contains no data rows"
  | .noHeaderRow => "File has no header row"
  | .missingRequiredColumn r => "Missing required column: " ++ roleName r
  | .allRowsInvalid => "No valid transactions found in file"

/-- Modelled from the spec: serialize a parse outcome for the HTTP boundary
(spec §6). -/
def serializeOutcome : ParseOutcome → Json
  | .success recs m stats _ =>
    .obj [("success", .bool true),
          ("transactions", .arr (recs.map serializeRecord)),
          ("metadata",
            .obj [("total_transactions", .int stats.totalTransactions),
                  ("column_mapping", serializeMapping m),
                  ("skipped_rows", .int stats.skippedRows)])]
  | .failure e _ =>
    .obj [("success", .bool false),
          ("error", .str (failureMessage e)),
          ("metadata", .obj [])]

/- ### Encoding resolver (spec §4.1) -/

/-- A UTF-8 continuation byte. -/
def isContByte (b : Nat) : Prop := 0x80 ≤ b ∧ b < 0xC0

instance (b : Nat) : Decidable (isContByte b) := by
  unfold isContByte; infer_instance

/-- Modelled from the spec: strict UTF-8 validating decoder, fuelled by the
input length (rejects invalid sequences, overlong forms and surrogates). -/
def utf8Fuel : Nat → List Nat → Option (List Char)
  | _, [] => some []
  | 0, _ :: _ => none
  | fuel + 1, b :: rest =>
    if b < 0x80 then (utf8Fuel fuel rest).map fun cs => Char.ofNat b :: cs
    else if b < 0xC2 then none
    else if b < 0xE0 then
      match rest with
      | b1 :: rest1 =>
        if isContByte b1 then
          (utf8Fuel fuel rest1).map fun cs =>
            Char.ofNat ((b - 0xC0) * 0x40 + (b1 - 0x80)) :: cs
        else none
      | [] => none
    else if b < 0xF0 then
      match rest with
      | b1 :: b2 :: rest2 =>
        if isContByte b1 ∧ isContByte b2 ∧ (b = 0xE0 → 0xA0 ≤ b1) ∧ (b = 0xED → b1 < 0xA0) then
          (utf8Fuel fuel rest2).map fun cs =>
            Char.ofNat (((b - 0xE0) * 0x40 + (b1 - 0x80)) * 0x40 + (b2 - 0x80)) :: cs
        else none
      | _ => none
    else if b < 0xF5 then
      match rest with
      | b1 :: b2 :: b3 :: rest3 =>
        if isContByte b1 ∧ isContByte b2 ∧ isContByte b3 ∧
            (b = 0xF0 → 0x90 ≤ b1) ∧ (b = 0xF4 → b1 < 0x90) then
          (utf8Fuel fuel rest3).map fun cs =>
            Char.ofNat ((((b - 0xF0) * 0x40 + (b1 - 0x80)) * 0x40 + (b2 - 0x80)) * 0x40 + (b3 - 0x80)) :: cs
        else none
      | _ => none
    else none

/-- Modelled from the spec: the UTF-8 candidate. -/
def decodeUtf8 (bs : List Nat) : Option (List Char) :=
  utf8Fuel bs.length bs

/-- Modelled from the spec: the UTF-8-with-byte-order-mark candidate —
requires the BOM, then strict UTF-8. -/
def decodeUtf8Bom : List Nat → Option (List Char)
  | 0xEF :: 0xBB :: 0xBF :: rest => decodeUtf8 rest
  | _ => none

/-- Modelled from the spec: the Windows-1252/Latin-1 candidate — every byte
maps to a code point, so it never fails (spec §4.1). -/
def decodeLatin1 (bs : List Nat) : Option (List Char) :=
  some (bs.map fun b => Char.ofNat (b % 0x100))

/-- Collect 16-bit units from byte pairs (big- or little-endian). -/
def utf16Units (bigEndian : Bool) : List Nat → Option (List Nat)
  | [] => some []
  | [_] => none
  | a :: b :: rest =>
    (utf16Units bigEndian rest).map fun us =>
      (if bigEndian then (a % 0x100) * 0x100 + b % 0x100 else (b % 0x100) * 0x100 + a % 0x100) :: us

/-- Combine UTF-16 units, pairing surrogates; fuelled by the unit count. -/
def utf16Combine : Nat → List Nat → Option (List Char)
  | _, [] => some []
  | 0, _ :: _ => none
  | fuel + 1, u :: rest =>
    if u < 0xD800 ∨ 0xE000 ≤ u then
      (utf16Combine fuel rest).map fun cs => Char.ofNat u :: cs
    else if u < 0xDC00 then
      match rest with
      | u2 :: rest2 =>
        if 0xDC00 ≤ u2 ∧ u2 < 0xE000 then
          (utf16Combine fuel rest2).map fun cs =>
            Char.ofNat (0x10000 + (u - 0xD800) * 0x400 + (u2 - 0xDC00)) :: cs
        else none
      | [] => none
    else none

/-- Modelled from the spec: the UTF-16 candidate — byte-order mark selects
the endianness, little-endian assumed without one. -/
def decodeUtf16 : List Nat → Option (List Char)
  | 0xFF :: 0xFE :: rest => (utf16Units false rest).bind fun us => utf16Combine us.length us
  | 0xFE :: 0xFF :: rest => (utf16Units true rest).bind fun us => utf16Combine us.length us
  | bs => (utf16Units false bs).bind fun us => utf16Combine us.length us

/-- Modelled from the spec: the fixed ordered candidate list — UTF-8, UTF-8
with byte-order mark, Windows-1252/Latin-1, UTF-16 (spec §4.1). -/
def encodingCandidates : List (List Nat → Option (List Char)) :=
  [decodeUtf8, decodeUtf8Bom, decodeLatin1, decodeUtf16]

/-- The first candidate that decodes without errors. -/
def firstDecode : List (List Nat → Option (List Char)) → List Nat → Option (List Char)
  | [], _ => none
  | d :: ds, bs =>
    match d bs with
    | some t => some t
    | none => firstDecode ds bs

/-- Modelled from the spec: the encoding resolver — accept the first
candidate that decodes without invalid-sequence errors, otherwise
`EncodingExhausted` (spec §4.1). -/
def resolveEncoding (bs : List Nat) : Except EngineFailure (List Char) :=
  match firstDecode encodingCandidates bs with
  | some t => .ok t
  | none => .error .encodingExhausted

/- ### The upload layer's file filter (src/server.js, lines 64–91) -/

/-- A JavaScript property value: either a string or `undefined`. -/
inductive JsValue where
  | jsUndefined
  | str (s : String)
deriving DecidableEq, Repr

/-- The file object multer passes to `fileFilter`: multer sets (among
others) `fieldname`, `originalname` and `mimetype` — all lowercase. -/
structure MulterFile where
  fieldname : String
  originalname : String
  mimetype : String
deriving DecidableEq, Repr

/-- JavaScript property access on the multer file object: reading any
property multer does not set yields `undefined`. -/
def getProp (f : MulterFile) (p : String) : JsValue :=
  if p = "fieldname" then .str f.fieldname
  else if p = "originalname" then .str f.originalname
  else if p = "mimetype" then .str f.mimetype
  else .jsUndefined

/-- `Array.prototype.includes` on a string array applied to a possibly
undefined value: no string element ever equals `undefined`. -/
def jsIncludes (xs : List String) (v : JsValue) : Bool :=
  match v with
  | .jsUndefined => false
  | .str s => xs.contains s

/-- The `allowedTypes` array of `fileFilter` (src/server.js:67). -/
def allowedTypes : List String :=
  ["text/csv", "application/csv", "application/vnd.ms-excel",
   "application/vnd.openxmlformats-officedocument.spreadsheetml.sheet"]

/-- The `allowedExtensions` array of `fileFilter` (src/server.js:74). -/
def allowedExtensions : List String := [".csv", ".xlsx", ".xls"]

/-- Lowercase a string. -/
def toLowerStr (s : String) : String :=
  String.mk (s.data.map Char.toLower)

/-- Node's `path.extname`: the suffix of the basename from its last dot;
empty when there is no dot, when the only dot leads the basename, or for
`"."`/`".."`. -/
def extnameOf (name : String) : String :=
  let base := (name.data.reverse.takeWhile fun c => !(c = '/')).reverse
  if base = ['.', '.'] then ""
  else
    let tl := base.reverse.takeWhile fun c => !(c = '.')
    if tl.length = base.length then ""
    else if base.length - tl.length - 1 = 0 then ""
    else String.mk ('.' :: tl.reverse)

/-- The `fileFilter` of src/server.js:65–82: it accepts when
`allowedTypes.includes(file.mimeType)` — note the property name `mimeType`,
which multer never sets — or when the lowercased extension of
`file.originalname` is in `allowedExtensions`. -/
def fileFilterAccepts (f : MulterFile) : Bool :=
  let fileExtension := toLowerStr (extnameOf f.originalname)
  jsIncludes allowedTypes (getProp f "mimeType") || allowedExtensions.contains fileExtension

/- ### Lemmas: string helpers -/

lemma isPrefixCh_refl (cs : List Char) : isPrefixCh cs cs = true := by
  induction cs with
  | nil => rfl
  | cons c t ih => simp [isPrefixCh, ih]

lemma isSubChars_refl (cs : List Char) : isSubChars cs cs = true := by
  cases cs with
  | nil => rfl
  | cons c t => simp [isSubChars, isPrefixCh_refl]

lemma mem_splitOnPred (p : Char → Bool) :
    ∀ (cs g : List Char) (c : Char), g ∈ splitOnPred p cs → c ∈ g → c ∈ cs := by
  intro cs
  induction cs with
  | nil =>
    intro g c hg hc
    simp [splitOnPred] at hg
    subst hg
    simp at hc
  | cons x rest ih =>
    intro g c hg hc
    simp only [splitOnPred] at hg
    by_cases hpx : p x
    · rw [if_pos hpx] at hg
      rcases List.mem_cons.mp hg with h1 | h1
      · subst h1; simp at hc
      · exact List.mem_cons_of_mem x (ih g c h1 hc)
    · rw [if_neg hpx] at hg
      rcases hr : splitOnPred p rest with _ | ⟨g0, gs⟩
      · rw [hr] at hg
        simp at hg
        subst hg
        simp at hc
        simp [hc]
      · rw [hr] at hg
        rcases List.mem_cons.mp hg with h1 | h1
        · subst h1
          rcases List.mem_cons.mp hc with h2 | h2
          · simp [h2]
          · have hcr : c ∈ rest :=
              ih g0 c (by rw [hr]; exact List.mem_cons_self g0 gs) h2
            exact List.mem_cons_of_mem x hcr
        · have hcr : c ∈ rest :=
            ih g c (by rw [hr]; exact List.mem_cons_of_mem g0 h1) hc
          exact List.mem_cons_of_mem x hcr

/- ### Lemmas: amount normalizer -/

lemma parseFixed2_digit (cs : List Char) (v : Nat) (h : parseFixed2 cs = some v) :
    ∃ c ∈ cs, isDigitCh c = true := by
  unfold parseFixed2 at h
  rcases hsp : splitOnChar '.' cs with _ | ⟨ip, _ | ⟨fp, _ | _⟩⟩ <;> rw [hsp] at h
  · simp [parseFixed2Groups] at h
  · -- one group: a plain integer
    rw [parseFixed2Groups] at h
    split at h
    · rename_i hcond
      simp only [Bool.and_eq_true, Bool.not_eq_true', List.isEmpty_eq_false] at hcond
      obtain ⟨hne, hdig⟩ := hcond
      cases ip with
      | nil => exact absurd rfl hne
      | cons c t =>
        refine ⟨c, ?_, ?_⟩
        · exact mem_splitOnPred _ cs (c :: t) c (hsp ▸ List.mem_cons_self _ _) (List.mem_cons_self c t)
        · have := List.all_eq_true.mp hdig c (List.mem_cons_self c t)
          simpa using this
    · exact absurd h (by simp)
  · -- two groups: integer and fractional part
    rw [parseFixed2Groups] at h
    split at h
    · rename_i hcond
      simp only [Bool.and_eq_true, Bool.or_eq_true, Bool.not_eq_true', List.isEmpty_eq_false] at hcond
      obtain ⟨⟨hip, hfp⟩, hne⟩ := hcond
      rcases hne with hne | hne
      · cases ip with
        | nil => exact absurd rfl hne
        | cons c t =>
          refine ⟨c, ?_, by simpa using List.all_eq_true.mp hip c (List.mem_cons_self c t)⟩
          exact mem_splitOnPred _ cs (c :: t) c (hsp ▸ List.mem_cons_self _ _) (List.mem_cons_self c t)
      · cases fp with
        | nil => exact absurd rfl hne
        | cons c t =>
          refine ⟨c, ?_, by simpa using List.all_eq_true.mp hfp c (List.mem_cons_self c t)⟩
          exact mem_splitOnPred _ cs (c :: t) c
            (hsp ▸ List.mem_cons_of_mem _ (List.mem_cons_self _ _)) (List.mem_cons_self c t)
    · exact absurd h (by simp)
  · simp [parseFixed2Groups] at h

lemma stripParens_subset (cs : List Char) : ∀ c ∈ (stripParens cs).2, c ∈ cs := by
  unfold stripParens
  split
  · rename_i rest
    split
    · intro c hc
      exact List.mem_cons_of_mem _ (List.dropLast_subset _ hc)
    · exact fun c hc => hc
  · exact fun c hc => hc

lemma stripSign_subset (cs : List Char) : ∀ c ∈ (stripSign cs).2, c ∈ cs := by
  unfold stripSign
  split
  · exact fun c hc => List.mem_cons_of_mem _ hc
  · exact fun c hc => List.mem_cons_of_mem _ hc
  · split
    · exact fun c hc => List.dropLast_subset _ hc
    · exact fun c hc => List.dropLast_subset _ hc
    · exact fun c hc => hc

lemma parseAmountChars_digit (cs : List Char) (v : Int) (h : parseAmountChars cs = some v) :
    ∃ c ∈ cs, isDigitCh c = true := by
  unfold parseAmountChars at h
  rcases hpf : parseFixed2 (amountCleaned cs) with _ | n
  · rw [hpf] at h; simp at h
  · obtain ⟨c, hc, hdig⟩ := parseFixed2_digit _ _ hpf
    unfold amountCleaned at hc
    have h1 := List.mem_of_mem_filter hc
    have h2 := stripSign_subset _ c h1
    have h3 := stripParens_subset _ c h2
    exact ⟨c, List.mem_of_mem_filter h3, hdig⟩

lemma parseAmount_none_of_no_digit (s : String) (h : hasDigit s = false) :
    parseAmount s = none := by
  cases hv : parseAmount s with
  | none => rfl
  | some v =>
    obtain ⟨c, hc, hdig⟩ := parseAmountChars_digit s.data v hv
    have := List.any_eq_false.mp h c hc
    simp [hdig] at this

/- ### Lemmas: date normalizer -/

lemma triple_some {oy om od : Option Nat} {y m d : Nat}
    (h : oy.bind (fun a => om.bind fun b => od.map fun c => (a, b, c)) = some (y, m, d)) :
    oy = some y ∧ om = some m ∧ od = some d := by
  rcases oy with _ | a
  · simp at h
  · rcases om with _ | b
    · simp at h
    · rcases od with _ | c
      · simp at h
      · simp at h
        obtain ⟨ha, hb, hc⟩ := h
        exact ⟨by rw [ha], by rw [hb], by rw [hc]⟩

lemma parse4Digits_lt (cs : List Char) (y : Nat) (h : parse4Digits cs = some y) : y < 10000 := by
  unfold parse4Digits at h
  split at h
  · split at h
    · rename_i a b c d hcond
      simp only [Bool.and_eq_true] at hcond
      obtain ⟨⟨⟨ha, hb⟩, hc⟩, hd⟩ := hcond
      simp only [isDigitCh, Bool.and_eq_true, decide_eq_true_eq] at ha hb hc hd
      simp only [Option.some.injEq] at h
      subst h
      unfold dval
      omega
    · exact absurd h (by simp)
  · exact absurd h (by simp)

lemma isoRaw_year {cs : List Char} {y m d : Nat} (h : isoRaw cs = some (y, m, d)) :
    y < 10000 := by
  unfold isoRaw at h
  split at h
  · exact parse4Digits_lt _ _ (triple_some h).1
  · exact absurd h (by simp)

lemma mdySlashRaw_year {cs : List Char} {y m d : Nat} (h : mdySlashRaw cs = some (y, m, d)) :
    y < 10000 := by
  unfold mdySlashRaw at h
  split at h
  · exact parse4Digits_lt _ _ (triple_some h).1
  · exact absurd h (by simp)

lemma dmySlashRaw_year {cs : List Char} {y m d : Nat} (h : dmySlashRaw cs = some (y, m, d)) :
    y < 10000 := by
  unfold dmySlashRaw at h
  split at h
  · exact parse4Digits_lt _ _ (triple_some h).1
  · exact absurd h (by simp)

lemma mdyDashRaw_year {cs : List Char} {y m d : Nat} (h : mdyDashRaw cs = some (y, m, d)) :
    y < 10000 := by
  unfold mdyDashRaw at h
  split at h
  · exact parse4Digits_lt _ _ (triple_some h).1
  · exact absurd h (by simp)

lemma textualRaw_year {cs : List Char} {y m d : Nat} (h : textualRaw cs = some (y, m, d)) :
    y < 10000 := by
  unfold textualRaw at h
  split at h
  · split at h
    · rename_i heqm heqd heqy
      simp only [Option.some.injEq, Prod.mk.injEq] at h
      obtain ⟨hy, -, -⟩ := h
      subst hy
      exact parse4Digits_lt _ _ heqy
    · split at h
      · rename_i heqd heqm heqy
        simp only [Option.some.injEq, Prod.mk.injEq] at h
        obtain ⟨hy, -, -⟩ := h
        subst hy
        exact parse4Digits_lt _ _ heqy
      · exact absurd h (by simp)
  · exact absurd h (by simp)

lemma datePattern_year {p : List Char → Option (Nat × Nat × Nat)} (hp : p ∈ datePatterns)
    {cs : List Char} {y m d : Nat} (h : p cs = some (y, m, d)) : y < 10000 := by
  simp only [datePatterns, List.mem_cons, List.not_mem_nil, or_false] at hp
  rcases hp with rfl | rfl | rfl | rfl | rfl
  · exact isoRaw_year h
  · exact mdySlashRaw_year h
  · exact dmySlashRaw_year h
  · exact mdyDashRaw_year h
  · exact textualRaw_year h

lemma tryDate_some :
    ∀ (ps : List (List Char → Option (Nat × Nat × Nat))) (cs : List Char) (d : CalDate),
      tryDate ps cs = some d →
      validDate d.year d.month d.day = true ∧
        ∃ p ∈ ps, p cs = some (d.year, d.month, d.day) := by
  intro ps
  induction ps with
  | nil => intro cs d h; simp [tryDate] at h
  | cons p ps ih =>
    intro cs d h
    simp only [tryDate] at h
    split at h
    · rename_i y m dd hp
      split at h
      · rename_i hv
        simp only [Option.some.injEq] at h
        subst h
        exact ⟨hv, p, List.mem_cons_self p ps, hp⟩
      · obtain ⟨hv2, q, hq, hqe⟩ := ih cs d h
        exact ⟨hv2, q, List.mem_cons_of_mem p hq, hqe⟩
    · obtain ⟨hv, q, hq, hqe⟩ := ih cs d h
      exact ⟨hv, q, List.mem_cons_of_mem p hq, hqe⟩

lemma daysInMonth_le (y m : Nat) : daysInMonth y m ≤ 31 := by
  unfold daysInMonth
  split
  · split <;> omega
  · split <;> omega

lemma validDate_bounds {y m d : Nat} (h : validDate y m d = true) :
    1 ≤ m ∧ m ≤ 12 ∧ 1 ≤ d ∧ d ≤ daysInMonth y m ∧ d ≤ 31 := by
  simp only [validDate, Bool.and_eq_true, decide_eq_true_eq] at h
  have := daysInMonth_le y m
  omega

lemma parseDate_props {s : String} {d : CalDate} (h : parseDate s = some d) :
    validDate d.year d.month d.day = true ∧ d.year < 10000 := by
  unfold parseDate at h
  obtain ⟨hv, p, hp, he⟩ := tryDate_some _ _ _ h
  exact ⟨hv, datePattern_year hp he⟩

/- ### Lemmas: date formatting -/

lemma digitChar_digit {n : Nat} (h : n ≤ 9) : isDigitCh (digitChar n) = true := by
  interval_cases n <;> decide

lemma isIso_formatDate {d : CalDate} (hy : d.year < 10000) (hm : d.month ≤ 12)
    (hd : d.day ≤ 31) : isIsoDateString (formatDate d) = true := by
  have hstep : isIsoDateString (formatDate d) =
      (isDigitCh (digitChar (d.year / 1000)) && isDigitCh (digitChar (d.year / 100 % 10)) &&
       isDigitCh (digitChar (d.year / 10 % 10)) && isDigitCh (digitChar (d.year % 10)) &&
       decide (('-' : Char) = '-') && isDigitCh (digitChar (d.month / 10)) &&
       isDigitCh (digitChar (d.month % 10)) && decide (('-' : Char) = '-') &&
       isDigitCh (digitChar (d.day / 10)) && isDigitCh (digitChar (d.day % 10))) := rfl
  have h1 : isDigitCh (digitChar (d.year / 1000)) = true := digitChar_digit (by omega)
  have h2 : isDigitCh (digitChar (d.year / 100 % 10)) = true := digitChar_digit (by omega)
  have h3 : isDigitCh (digitChar (d.year / 10 % 10)) = true := digitChar_digit (by omega)
  have h4 : isDigitCh (digitChar (d.year % 10)) = true := digitChar_digit (by omega)
  have h5 : isDigitCh (digitChar (d.month / 10)) = true := digitChar_digit (by omega)
  have h6 : isDigitCh (digitChar (d.month % 10)) = true := digitChar_digit (by omega)
  have h7 : isDigitCh (digitChar (d.day / 10)) = true := digitChar_digit (by omega)
  have h8 : isDigitCh (digitChar (d.day % 10)) = true := digitChar_digit (by omega)
  simp [hstep, h1, h2, h3, h4, h5, h6, h7, h8]

/- ### Lemmas: column classifier -/

lemma assignOne_some {i : Nat} {h : String} {pm : RoleAssign} {r : Role} {v : Nat × String}
    (hv : pm r = some v) : assignOne i h pm r = some v := by
  unfold assignOne
  rcases hpr : priorityRole h with _ | r0 <;> simp only [assignRole]
  · exact hv
  · rcases hpm0 : pm r0 with _ | v0 <;> simp only [assignSet]
    · by_cases hrr : r = r0
      · subst hrr; rw [hv] at hpm0; exact absurd hpm0 (by simp)
      · simp [setRole, hrr, hv]
    · exact hv

lemma assignHeaders_stable :
    ∀ (hs : List String) (i : Nat) (pm : RoleAssign) (r : Role) (v : Nat × String),
      pm r = some v → assignHeaders i hs pm r = some v := by
  intro hs
  induction hs with
  | nil => intro i pm r v hv; simpa [assignHeaders] using hv
  | cons h0 t ih =>
    intro i pm r v hv
    simp only [assignHeaders]
    exact ih (i + 1) _ r v (assignOne_some hv)

lemma assignHeaders_none :
    ∀ (hs : List String) (i : Nat) (pm : RoleAssign) (r : Role),
      pm r = none → assignHeaders i hs pm r = firstMatchFrom r i hs := by
  intro hs
  induction hs with
  | nil => intro i pm r hv; simpa [assignHeaders, firstMatchFrom] using hv
  | cons h0 t ih =>
    intro i pm r hv
    simp only [assignHeaders, firstMatchFrom]
    unfold assignOne
    rcases hpr : priorityRole h0 with _ | r0 <;> simp only [assignRole]
    · rw [if_neg (by simp)]
      exact ih (i + 1) pm r hv
    · rcases hpm0 : pm r0 with _ | v0 <;> simp only [assignSet]
      · by_cases hrr : r = r0
        · subst hrr
          rw [if_pos rfl]
          exact assignHeaders_stable t (i + 1) _ r (i, h0) (by simp [setRole])
        · rw [if_neg (by simp; exact fun he => hrr he.symm)]
          exact ih (i + 1) _ r (by simp [setRole, hrr, hv])
      · by_cases hrr : r = r0
        · subst hrr; rw [hv] at hpm0; exact absurd hpm0 (by simp)
        · rw [if_neg (by simp; exact fun he => hrr he.symm)]
          exact ih (i + 1) pm r hv

lemma assign_eval (hs : List String) (r : Role) :
    assignHeaders 0 hs emptyAssign r = firstMatchFrom r 0 hs :=
  assignHeaders_none hs 0 emptyAssign r rfl

/-- The classifier, expressed through the leftmost priority-role matches. -/
lemma classify_eq (hs : List String) :
    classifyColumns hs =
      match firstMatchFrom .date 0 hs with
      | none => .error (.missingRequiredColumn .date)
      | some dcol =>
        match firstMatchFrom .amount 0 hs with
        | none => .error (.missingRequiredColumn .amount)
        | some acol =>
          match firstMatchFrom .merchant 0 hs with
          | none => .error (.missingRequiredColumn .merchant)
          | some mcol => .ok ⟨dcol, acol, mcol, firstMatchFrom .category 0 hs⟩ := by
  unfold classifyColumns
  rw [assign_eval, assign_eval, assign_eval, assign_eval]

lemma classify_ok {hs : List String} {m : ColumnMapping} (h : classifyColumns hs = .ok m) :
    firstMatchFrom .date 0 hs = some m.date ∧ firstMatchFrom .amount 0 hs = some m.amount ∧
      firstMatchFrom .merchant 0 hs = some m.merchant ∧
      m.category = firstMatchFrom .category 0 hs := by
  rw [classify_eq] at h
  split at h
  · exact absurd h (by simp)
  · rename_i dcol hd
    split at h
    · exact absurd h (by simp)
    · rename_i acol ha
      split at h
      · exact absurd h (by simp)
      · rename_i mcol hm
        simp only [Except.ok.injEq] at h
        subst h
        exact ⟨hd, ha, hm, rfl⟩

lemma firstMatchFrom_none {r : Role} :
    ∀ (hs : List String) (i : Nat), (∀ h ∈ hs, priorityRole h ≠ some r) →
      firstMatchFrom r i hs = none := by
  intro hs
  induction hs with
  | nil => intro i _; rfl
  | cons h0 t ih =>
    intro i hall
    simp only [firstMatchFrom]
    rw [if_neg (hall h0 (List.mem_cons_self h0 t))]
    exact ih (i + 1) fun h hm => hall h (List.mem_cons_of_mem h0 hm)

lemma firstMatchFrom_isSome {r : Role} :
    ∀ (hs : List String) (i : Nat), (∃ h ∈ hs, priorityRole h = some r) →
      ∃ v, firstMatchFrom r i hs = some v := by
  intro hs
  induction hs with
  | nil => intro i hex; simp at hex
  | cons h0 t ih =>
    intro i hex
    simp only [firstMatchFrom]
    by_cases h0r : priorityRole h0 = some r
    · exact ⟨(i, h0), by rw [if_pos h0r]⟩
    · rw [if_neg h0r]
      obtain ⟨h, hm, hpr⟩ := hex
      rcases List.mem_cons.mp hm with rfl | hm
      · exact absurd hpr h0r
      · exact ih (i + 1) ⟨h, hm, hpr⟩

lemma firstMatchFrom_leftmost {r : Role} :
    ∀ (hs : List String) (i j : Nat) (hcol : String),
      firstMatchFrom r i hs = some (j, hcol) →
      ∃ k, k < hs.length ∧ j = i + k ∧ hs.getD k "" = hcol ∧
        priorityRole hcol = some r ∧
        ∀ k2, k2 < k → priorityRole (hs.getD k2 "") ≠ some r := by
  intro hs
  induction hs with
  | nil => intro i j hcol h; simp [firstMatchFrom] at h
  | cons h0 t ih =>
    intro i j hcol h
    simp only [firstMatchFrom] at h
    by_cases h0r : priorityRole h0 = some r
    · rw [if_pos h0r] at h
      simp only [Option.some.injEq, Prod.mk.injEq] at h
      obtain ⟨hj, hc⟩ := h
      subst hj; subst hc
      exact ⟨0, by simp, by omega, rfl, h0r, by omega⟩
    · rw [if_neg h0r] at h
      obtain ⟨k, hk, hj, hget, hpr, hmin⟩ := ih (i + 1) j hcol h
      refine ⟨k + 1, by simpa using hk, by omega, by simpa using hget, hpr, ?_⟩
      intro k2 hk2
      cases k2 with
      | zero => simpa using h0r
      | succ k3 =>
        have := hmin k3 (by omega)
        simpa using this

lemma priorityRole_eq_date {h : String} :
    priorityRole h = some .date ↔ matchesRole h .date = true := by
  unfold priorityRole
  by_cases h1 : matchesRole h .date = true
  · simp [h1]
  · simp only [Bool.not_eq_true] at h1
    by_cases h2 : matchesRole h .amount = true <;>
      by_cases h3 : matchesRole h .merchant = true <;>
        by_cases h4 : matchesRole h .category = true <;>
          simp [h1, h2, h3, h4]

lemma priorityRole_amount_matches {h : String}
    (hpr : priorityRole h = some .amount) : matchesRole h .amount = true := by
  unfold priorityRole at hpr
  by_cases h1 : matchesRole h .date = true
  · simp [h1] at hpr
  · by_cases h2 : matchesRole h .amount = true
    · exact h2
    · by_cases h3 : matchesRole h .merchant = true <;>
        by_cases h4 : matchesRole h .category = true <;>
          simp [h1, h2, h3, h4] at hpr

lemma priorityRole_merchant_matches {h : String}
    (hpr : priorityRole h = some .merchant) : matchesRole h .merchant = true := by
  unfold priorityRole at hpr
  by_cases h1 : matchesRole h .date = true
  · simp [h1] at hpr
  · by_cases h2 : matchesRole h .amount = true
    · simp [h1, h2] at hpr
    · by_cases h3 : matchesRole h .merchant = true
      · exact h3
      · by_cases h4 : matchesRole h .category = true <;> simp [h1, h2, h3, h4] at hpr

/- ### Lemmas: row assembler -/

lemma processRows_fst (m : ColumnMapping) :
    ∀ (rows : List (List String)) (i : Nat),
      (processRows m i rows).1 = rows.filterMap fun row => (extractRow m row).toOption := by
  intro rows
  induction rows with
  | nil => intro i; simp [processRows]
  | cons row rest ih =>
    intro i
    simp only [processRows, List.filterMap_cons]
    cases he : extractRow m row <;> simp [he, Except.toOption, ih (i + 1)]

lemma processRows_len (m : ColumnMapping) :
    ∀ (rows : List (List String)) (i : Nat),
      (processRows m i rows).1.length + (processRows m i rows).2.length = rows.length := by
  intro rows
  induction rows with
  | nil => intro i; simp [processRows]
  | cons row rest ih =>
    intro i
    simp only [processRows]
    have hrest := ih (i + 1)
    cases he : extractRow m row <;> simp [he] <;> omega

lemma extractRow_ok_inv {m : ColumnMapping} {row : List String} {r : TransactionRecord}
    (h : extractRow m row = .ok r) :
    parseDate (row.getD m.date.1 "") = some r.date ∧
      parseAmount (row.getD m.amount.1 "") = some r.amount ∧
      r.merchant = trimStr (row.getD m.merchant.1 "") ∧ ¬r.merchant = "" ∧
      r.category = m.category.bind fun c =>
        if trimStr (row.getD c.1 "") = "" then none else some (trimStr (row.getD c.1 "")) := by
  unfold extractRow at h
  split at h
  · exact absurd h (by simp)
  · rename_i d hd
    split at h
    · exact absurd h (by simp)
    · rename_i amt hamt
      split at h
      · exact absurd h (by simp)
      · rename_i hmer
        simp only [Except.ok.injEq] at h
        subst h
        exact ⟨hd, hamt, rfl, hmer, rfl⟩

lemma parseGrid_success_inv {header : List String} {rest : List (List String)}
    {recs : List TransactionRecord} {m : ColumnMapping} {st : ParseStats}
    {dgs : List RowDiagnostic}
    (h : parseGrid (header :: rest) = .success recs m st dgs) :
    classifyColumns header = .ok m ∧
      recs = (processRows m 0 (preparedRows header rest)).1 ∧
      dgs = (processRows m 0 (preparedRows header rest)).2 ∧
      st = ⟨recs.length, dgs.length⟩ := by
  simp only [parseGrid] at h
  split at h
  · exact absurd h (by simp)
  · split at h
    · exact absurd h (by simp)
    · rename_i m2 hm2
      simp only [assembleRows] at h
      split at h
      · exact absurd h (by simp)
      · simp only [ParseOutcome.success.injEq] at h
        obtain ⟨h1, h2, h3, h4⟩ := h
        subst h2
        exact ⟨hm2, h1.symm, h4.symm, by rw [← h3, h1, h4]⟩

lemma toOption_ok {ε α : Type} {x : Except ε α} {a : α} (h : x.toOption = some a) :
    x = .ok a := by
  cases x with
  | error e => simp [Except.toOption] at h
  | ok b => simp [Except.toOption] at h; rw [h]

/- ### Claim theorems -/

/-- C6: the amount normalizer strips currency symbols and whitespace, treats
a parenthesized value as negative, detects a leading or trailing sign,
strips thousands separators and parses into a fixed-point decimal with two
fractional digits (round-half-even beyond two); a cell that is empty or has
no digit characters yields `UnparseableAmount` (`none`).  Amounts are in
cents: `some 12345` is `123.45`. -/
theorem amount_normalization :
    parseAmount "$123.45" = some 12345 ∧
    parseAmount "(123.45)" = some (-12345) ∧
    parseAmount "-123.45" = some (-12345) ∧
    parseAmount "1,234.50" = some 123450 ∧
    parseAmount "" = none ∧
    parseAmount "1.005" = some 100 ∧
    parseAmount "1.015" = some 102 ∧
    ∀ s : String, hasDigit s = false → parseAmount s = none := by
  refine ⟨by decide, by decide, by decide, by decide, by decide, by decide, by decide, ?_⟩
  exact parseAmount_none_of_no_digit

/-- Witness for C6: `"N/A"` has no digit characters, and the normalizer
rejects it. -/
theorem amount_normalization_witness :
    hasDigit "N/A" = false ∧ parseAmount "N/A" = none :=
  ⟨by decide, amount_normalization.2.2.2.2.2.2.2 "N/A" (by decide)⟩

/-- C7: the date normalizer tries the ordered pattern list (ISO
`YYYY-MM-DD`, then `MM/DD/YYYY`, then `DD/MM/YYYY`, then `MM-DD-YYYY`, then
textual-month variants) on the trimmed cell and returns the first pattern
that fully consumes the cell and yields a valid calendar date, otherwise
`UnparseableDate` (`none`); `MM/DD` is tried before `DD/MM`, so
`03/04/2024` is March 4. -/
theorem date_normalization :
    parseDate "2023-12-25" = some ⟨2023, 12, 25⟩ ∧
    parseDate "12/25/2023" = some ⟨2023, 12, 25⟩ ∧
    parseDate "03/04/2024" = some ⟨2024, 3, 4⟩ ∧
    parseDate "32/01/2023" = none ∧
    ∀ (s : String) (d : CalDate), parseDate s = some d →
      validDate d.year d.month d.day = true ∧ 1 ≤ d.month ∧ d.month ≤ 12 ∧
      1 ≤ d.day ∧ d.day ≤ daysInMonth d.year d.month ∧
      ∃ p ∈ datePatterns, p (trimChars s.data) = some (d.year, d.month, d.day) := by
  refine ⟨by decide, by decide, by decide, by decide, ?_⟩
  intro s d h
  have h2 : tryDate datePatterns (trimChars s.data) = some d := by
    unfold parseDate at h; exact h
  obtain ⟨hv, p, hmem, he⟩ := tryDate_some _ _ _ h2
  obtain ⟨hm1, hm2, hd1, hd2, -⟩ := validDate_bounds hv
  exact ⟨hv, hm1, hm2, hd1, hd2, p, hmem, he⟩

/-- Witness for C7: the general clause applied to the ISO example. -/
theorem date_normalization_witness :
    validDate 2023 12 25 = true ∧
    ∃ p ∈ datePatterns, p (trimChars "2023-12-25".data) = some (2023, 12, 25) := by
  have h := date_normalization.2.2.2.2 "2023-12-25" ⟨2023, 12, 25⟩ date_normalization.1
  exact ⟨h.1, h.2.2.2.2.2⟩

/-- C9: the multer `fileFilter` of src/server.js accepts a file exactly when
the lowercased extension of its original name is an allowed extension: the
MIME-type disjunct reads `file.mimeType`, a property multer never sets (it
sets `mimetype`), so that disjunct is always false; a file whose MIME type
is allowed but whose extension is not is rejected. -/
theorem fileFilter_extension_only (f : MulterFile) :
    getProp f "mimeType" = JsValue.jsUndefined ∧
    fileFilterAccepts f = allowedExtensions.contains (toLowerStr (extnameOf f.originalname)) ∧
    (allowedTypes.contains f.mimetype = true →
      allowedExtensions.contains (toLowerStr (extnameOf f.originalname)) = false →
      fileFilterAccepts f = false) := by
  have hprop : getProp f "mimeType" = JsValue.jsUndefined := by
    unfold getProp
    rw [if_neg (by decide), if_neg (by decide), if_neg (by decide)]
  have hacc : fileFilterAccepts f =
      allowedExtensions.contains (toLowerStr (extnameOf f.originalname)) := by
    unfold fileFilterAccepts
    rw [hprop]
    simp [jsIncludes]
  exact ⟨hprop, hacc, fun _ hext => by rw [hacc, hext]⟩

/-- Witness for C9: a `.txt` upload with an allowed MIME type is rejected. -/
theorem fileFilter_extension_only_witness :
    allowedTypes.contains "text/csv" = true ∧
    fileFilterAccepts ⟨"file", "statement.txt", "text/csv"⟩ = false :=
  ⟨by decide,
   (fileFilter_extension_only ⟨"file", "statement.txt", "text/csv"⟩).2.2 (by decide) (by decide)⟩

/-- C10: the encoding resolver returns the decoded text of the first
candidate (fixed order UTF-8, UTF-8 with byte-order mark, Windows-1252/
Latin-1, UTF-16) that decodes without errors; the Latin-1 candidate maps
every byte to a code point and never fails, so some candidate always
succeeds and the `EncodingExhausted` branch is unreachable. -/
theorem encoding_fallback_total (bs : List Nat) :
    decodeLatin1 bs = some (bs.map fun b => Char.ofNat (b % 0x100)) ∧
    (∃ t, resolveEncoding bs = Except.ok t) ∧
    (∀ t, decodeUtf8 bs = some t → resolveEncoding bs = Except.ok t) ∧
    (decodeUtf8 bs = none → ∀ t, decodeUtf8Bom bs = some t →
      resolveEncoding bs = Except.ok t) ∧
    (decodeUtf8 bs = none → decodeUtf8Bom bs = none →
      resolveEncoding bs = Except.ok (bs.map fun b => Char.ofNat (b % 0x100))) ∧
    ∀ e : EngineFailure, ¬resolveEncoding bs = Except.error e := by
  rcases h8 : decodeUtf8 bs with _ | t8 <;> rcases hb : decodeUtf8Bom bs with _ | tb <;>
    simp [resolveEncoding, firstDecode, encodingCandidates, decodeLatin1, h8, hb]

/-- Witness for C10: an ASCII byte decodes through UTF-8; an invalid UTF-8
byte falls back to Latin-1 rather than failing. -/
theorem encoding_fallback_total_witness :
    resolveEncoding [0x41] = Except.ok ['A'] ∧
    resolveEncoding [0xC0, 0x20] = Except.ok [Char.ofNat 0xC0, ' '] := by
  constructor
  · exact (encoding_fallback_total [0x41]).2.2.1 ['A'] rfl
  · exact (encoding_fallback_total [0xC0, 0x20]).2.2.2.2.1 rfl rfl

lemma parseGrid_cons_ok {header : List String} {rest : List (List String)}
    {m : ColumnMapping} (hne : (preparedRows header rest).isEmpty = false)
    (hcl : classifyColumns header = .ok m) :
    parseGrid (header :: rest) = assembleRows m (preparedRows header rest) := by
  simp only [parseGrid]
  rw [if_neg (by simp [hne]), hcl]

/-- C1: when the column classifier succeeds but zero data rows pass
normalization, the outcome is `Failure{AllRowsInvalid}` — not a success with
an empty record list — and every failing row left one `RowDiagnostic`. -/
theorem allRowsInvalid_escalation (header : List String) (rest : List (List String))
    (m : ColumnMapping)
    (hcl : classifyColumns header = .ok m)
    (hne : ¬preparedRows header rest = [])
    (hall : ∀ row ∈ preparedRows header rest, (extractRow m row).toOption = none) :
    parseGrid (header :: rest) =
      .failure .allRowsInvalid (processRows m 0 (preparedRows header rest)).2 ∧
    (processRows m 0 (preparedRows header rest)).2.length =
      (preparedRows header rest).length := by
  have hrec : (processRows m 0 (preparedRows header rest)).1 = [] := by
    rw [processRows_fst]
    exact List.filterMap_eq_nil_iff.mpr hall
  have hlen := processRows_len m (preparedRows header rest) 0
  constructor
  · rw [parseGrid_cons_ok (by simp [List.isEmpty_iff, hne]) hcl]
    simp [assembleRows, hrec]
  · rw [hrec] at hlen
    simpa using hlen

/-- Witness for C1: a one-row grid whose only data row has an unparseable
date escalates to `AllRowsInvalid`. -/
theorem allRowsInvalid_escalation_witness :
    parseGrid [["Date", "Description", "Amount"], ["bad", "SHOP", "5.00"]] =
      .failure .allRowsInvalid [⟨0, ["bad", "SHOP", "5.00"], .unparseableDate⟩] :=
  (allRowsInvalid_escalation ["Date", "Description", "Amount"] [["bad", "SHOP", "5.00"]]
    ⟨(0, "Date"), (2, "Amount"), (1, "Description"), none⟩ rfl (by decide) (by decide)).1

/-- C8: for every successful parse, `records` is the order-preserving image
of the surviving data rows — exactly the `filterMap` of row extraction over
the blank-dropped, padded rows, with no sorting — and the reported total is
its length. -/
theorem row_order_preservation (header : List String) (rest : List (List String))
    (recs : List TransactionRecord) (m : ColumnMapping) (st : ParseStats)
    (dgs : List RowDiagnostic)
    (h : parseGrid (header :: rest) = .success recs m st dgs) :
    recs = (preparedRows header rest).filterMap
      (fun row => (extractRow m row).toOption) ∧
    st.totalTransactions = recs.length ∧ st.skippedRows = dgs.length := by
  obtain ⟨-, h2, -, h4⟩ := parseGrid_success_inv h
  exact ⟨by rw [h2, processRows_fst], by rw [h4], by rw [h4]⟩

/-- Witness for C8: the records of the three-row example are the `filterMap`
image of its prepared rows. -/
theorem row_order_preservation_witness :
    [(⟨⟨2023, 12, 25⟩, "AMAZON.COM", -4599, none⟩ : TransactionRecord),
     ⟨⟨2023, 12, 23⟩, "STORE", 1000, none⟩] =
      (preparedRows ["Date", "Description", "Amount"]
        [["2023-12-25", "AMAZON.COM", "-45.99"],
         ["2023-12-24", "GROCERY STORE", ""],
         ["2023-12-23", "STORE", "10.00"]]).filterMap
        (fun row =>
          (extractRow ⟨(0, "Date"), (2, "Amount"), (1, "Description"), none⟩ row).toOption) :=
  (row_order_preservation ["Date", "Description", "Amount"]
    [["2023-12-25", "AMAZON.COM", "-45.99"],
     ["2023-12-24", "GROCERY STORE", ""],
     ["2023-12-23", "STORE", "10.00"]]
    [⟨⟨2023, 12, 25⟩, "AMAZON.COM", -4599, none⟩, ⟨⟨2023, 12, 23⟩, "STORE", 1000, none⟩]
    ⟨(0, "Date"), (2, "Amount"), (1, "Description"), none⟩ ⟨2, 1⟩
    [⟨1, ["2023-12-24", "GROCERY STORE", ""], .unparseableAmount⟩] rfl).1

/-- C2: a successful parse serializes as an object with `success = true`,
the records under the key `transactions` (each with the date formatted
`YYYY-MM-DD`, the merchant string, the amount number and the category
string-or-null), and a metadata object carrying `total_transactions`, the
resolved `column_mapping` and `skipped_rows`. -/
theorem success_serialization (header : List String) (rest : List (List String))
    (recs : List TransactionRecord) (m : ColumnMapping) (st : ParseStats)
    (dgs : List RowDiagnostic)
    (h : parseGrid (header :: rest) = .success recs m st dgs) :
    serializeOutcome (.success recs m st dgs) =
      Json.obj [("success", .bool true),
                ("transactions", .arr (recs.map serializeRecord)),
                ("metadata", Json.obj
                  [("total_transactions", .int st.totalTransactions),
                   ("column_mapping", serializeMapping m),
                   ("skipped_rows", .int st.skippedRows)])] ∧
    st.totalTransactions = recs.length ∧ st.skippedRows = dgs.length ∧
    ∀ r ∈ recs,
      serializeRecord r = Json.obj
        [("date", .str (formatDate r.date)), ("merchant", .str r.merchant),
         ("amount", .dec2 r.amount), ("category", r.category.elim Json.null Json.str)] ∧
      isIsoDateString (formatDate r.date) = true := by
  obtain ⟨-, h2, -, h4⟩ := parseGrid_success_inv h
  refine ⟨rfl, by rw [h4], by rw [h4], ?_⟩
  intro r hr
  refine ⟨rfl, ?_⟩
  have hr2 : r ∈ (preparedRows header rest).filterMap
      (fun row => (extractRow m row).toOption) := by
    rw [← processRows_fst, ← h2]; exact hr
  obtain ⟨row, hrow, hext⟩ := List.mem_filterMap.mp hr2
  obtain ⟨hd, -, -, -, -⟩ := extractRow_ok_inv (toOption_ok hext)
  obtain ⟨hv, hy⟩ := parseDate_props hd
  obtain ⟨-, hm12, -, -, hd31⟩ := validDate_bounds hv
  exact isIso_formatDate hy hm12 hd31

/-- Witness for C2: the date of a record of the three-row example is
serialized in `YYYY-MM-DD` shape. -/
theorem success_serialization_witness :
    isIsoDateString (formatDate ⟨2023, 12, 25⟩) = true := by
  have h := (success_serialization ["Date", "Description", "Amount"]
    [["2023-12-25", "AMAZON.COM", "-45.99"],
     ["2023-12-24", "GROCERY STORE", ""],
     ["2023-12-23", "STORE", "10.00"]]
    [⟨⟨2023, 12, 25⟩, "AMAZON.COM", -4599, none⟩, ⟨⟨2023, 12, 23⟩, "STORE", 1000, none⟩]
    ⟨(0, "Date"), (2, "Amount"), (1, "Description"), none⟩ ⟨2, 1⟩
    [⟨1, ["2023-12-24", "GROCERY STORE", ""], .unparseableAmount⟩] rfl).2.2.2
  exact (h ⟨⟨2023, 12, 25⟩, "AMAZON.COM", -4599, none⟩ (by decide)).2

/-- C3: a data row that fails a required normalization is recorded as a
`RowDiagnostic`, excluded from the records, and processing continues with
the remaining rows; in the three-row example where exactly row 2 has an
empty amount cell the parse succeeds with 2 records and 1 skipped row. -/
theorem partial_failure_policy :
    (∀ (m : ColumnMapping) (rows : List (List String)) (i : Nat),
      (processRows m i rows).1 = rows.filterMap (fun row => (extractRow m row).toOption) ∧
      (processRows m i rows).1.length + (processRows m i rows).2.length = rows.length) ∧
    (∀ (m : ColumnMapping) (i : Nat) (row : List String) (rest : List (List String))
        (e : RowErrorKind), extractRow m row = .error e →
      (processRows m i (row :: rest)).2 = ⟨i, row, e⟩ :: (processRows m (i + 1) rest).2 ∧
      (processRows m i (row :: rest)).1 = (processRows m (i + 1) rest).1) ∧
    parseGrid [["Date", "Description", "Amount"],
               ["2023-12-25", "AMAZON.COM", "-45.99"],
               ["2023-12-24", "GROCERY STORE", ""],
               ["2023-12-23", "STORE", "10.00"]] =
      .success
        [⟨⟨2023, 12, 25⟩, "AMAZON.COM", -4599, none⟩, ⟨⟨2023, 12, 23⟩, "STORE", 1000, none⟩]
        ⟨(0, "Date"), (2, "Amount"), (1, "Description"), none⟩
        ⟨2, 1⟩
        [⟨1, ["2023-12-24", "GROCERY STORE", ""], .unparseableAmount⟩] ∧
    extractRow ⟨(0, "Date"), (2, "Amount"), (1, "Description"), none⟩
      ["2023-12-24", "GROCERY STORE", ""] = .error .unparseableAmount := by
  refine ⟨fun m rows i => ⟨processRows_fst m rows i, processRows_len m rows i⟩, ?_, by decide, rfl⟩
  intro m i row rest e he
  constructor <;> simp [processRows, he]

/-- Witness for C3: the row-failure clause applied to the failing row of the
three-row example — the diagnostic is recorded and processing continues. -/
theorem partial_failure_policy_witness :
    (processRows ⟨(0, "Date"), (2, "Amount"), (1, "Description"), none⟩ 1
        [["2023-12-24", "GROCERY STORE", ""], ["2023-12-23", "STORE", "10.00"]]).2 =
      ⟨1, ["2023-12-24", "GROCERY STORE", ""], .unparseableAmount⟩ ::
        (processRows ⟨(0, "Date"), (2, "Amount"), (1, "Description"), none⟩ 2
          [["2023-12-23", "STORE", "10.00"]]).2 ∧
    (processRows ⟨(0, "Date"), (2, "Amount"), (1, "Description"), none⟩ 1
        [["2023-12-24", "GROCERY STORE", ""], ["2023-12-23", "STORE", "10.00"]]).1 =
      (processRows ⟨(0, "Date"), (2, "Amount"), (1, "Description"), none⟩ 2
        [["2023-12-23", "STORE", "10.00"]]).1 :=
  partial_failure_policy.2.1 ⟨(0, "Date"), (2, "Amount"), (1, "Description"), none⟩ 1
    ["2023-12-24", "GROCERY STORE", ""] [["2023-12-23", "STORE", "10.00"]]
    .unparseableAmount rfl

/-- C4: a header matches a role exactly when its normalized form equals, or
contains as a substring, a keyword of that role; a header matching several
roles is assigned by the priority `date > amount > merchant > category`;
each role keeps only its leftmost matching header; the example headers
resolve to the expected mapping. -/
theorem classifier_keyword_matching :
    (∀ (h : String) (r : Role), matchesRole h r = true ↔
      ∃ kw ∈ roleKeywords r,
        normalizeHeader h = kw ∨ isSubChars kw.data (normalizeHeader h).data = true) ∧
    (∀ h : String, matchesRole h .date = true → priorityRole h = some .date) ∧
    (∀ h : String, matchesRole h .amount = true → matchesRole h .date = false →
      priorityRole h = some .amount) ∧
    (∀ h : String, matchesRole h .merchant = true → matchesRole h .date = false →
      matchesRole h .amount = false → priorityRole h = some .merchant) ∧
    (∀ h : String, matchesRole h .category = true → matchesRole h .date = false →
      matchesRole h .amount = false → matchesRole h .merchant = false →
      priorityRole h = some .category) ∧
    (∀ (hs : List String) (m : ColumnMapping), classifyColumns hs = .ok m →
      firstMatchFrom .date 0 hs = some m.date ∧
      firstMatchFrom .amount 0 hs = some m.amount ∧
      firstMatchFrom .merchant 0 hs = some m.merchant ∧
      m.category = firstMatchFrom .category 0 hs) ∧
    (∀ (r : Role) (hs : List String) (j : Nat) (hcol : String),
      firstMatchFrom r 0 hs = some (j, hcol) →
      j < hs.length ∧ hs.getD j "" = hcol ∧ priorityRole hcol = some r ∧
        ∀ k, k < j → priorityRole (hs.getD k "") ≠ some r) ∧
    (classifyColumns ["Transaction Date", "Amount", "Description", "Category"]).toOption =
      some ⟨(0, "Transaction Date"), (1, "Amount"), (2, "Description"),
            some (3, "Category")⟩ := by
  refine ⟨?_, ?_, ?_, ?_, ?_, ?_, ?_, by decide⟩
  · intro h r
    unfold matchesRole
    rw [List.any_eq_true]
    constructor
    · rintro ⟨kw, hkw, hsub⟩
      exact ⟨kw, hkw, Or.inr hsub⟩
    · rintro ⟨kw, hkw, heq | hsub⟩
      · refine ⟨kw, hkw, ?_⟩
        rw [heq]
        exact isSubChars_refl kw.data
      · exact ⟨kw, hkw, hsub⟩
  · intro h hd; simp [priorityRole, hd]
  · intro h ha hd; simp [priorityRole, ha, hd]
  · intro h hm hd ha; simp [priorityRole, hm, hd, ha]
  · intro h hc hd ha hm; simp [priorityRole, hc, hd, ha, hm]
  · intro hs m h; exact classify_ok h
  · intro r hs j hcol hf
    obtain ⟨k, hk, hj, hget, hpr, hmin⟩ := firstMatchFrom_leftmost hs 0 j hcol hf
    have hjk : j = k := by omega
    subst hjk
    exact ⟨hk, hget, hpr, hmin⟩

/-- Witness for C4: the classifier clause applied to the example headers,
and the priority clause applied to "Transaction Date". -/
theorem classifier_keyword_matching_witness :
    priorityRole "Transaction Date" = some Role.date ∧
    firstMatchFrom Role.date 0 ["Transaction Date", "Amount", "Description", "Category"] =
      some (0, "Transaction Date") := by
  constructor
  · exact classifier_keyword_matching.2.1 "Transaction Date" (by decide)
  · exact (classifier_keyword_matching.2.2.2.2.2.1
      ["Transaction Date", "Amount", "Description", "Category"]
      ⟨(0, "Transaction Date"), (1, "Amount"), (2, "Description"), some (3, "Category")⟩
      rfl).1

/-- C5: if no header matches the date role classification fails with
`MissingRequiredColumn(date)` (likewise for amount and merchant, each
checked after the higher-priority roles resolved); the example headers
`["Amount","Description"]` fail with the date role; an absent category
column is not a failure — every output record then has `category = none`. -/
theorem missing_required_column :
    (∀ hs : List String, (∀ h ∈ hs, matchesRole h .date = false) →
      classifyColumns hs = .error (.missingRequiredColumn .date)) ∧
    (∀ hs : List String, (∃ h ∈ hs, priorityRole h = some .date) →
      (∀ h ∈ hs, matchesRole h .amount = false) →
      classifyColumns hs = .error (.missingRequiredColumn .amount)) ∧
    (∀ hs : List String, (∃ h ∈ hs, priorityRole h = some .date) →
      (∃ h ∈ hs, priorityRole h = some .amount) →
      (∀ h ∈ hs, matchesRole h .merchant = false) →
      classifyColumns hs = .error (.missingRequiredColumn .merchant)) ∧
    classifyColumns ["Amount", "Description"] = .error (.missingRequiredColumn .date) ∧
    ∀ (header : List String) (rest : List (List String)) (recs : List TransactionRecord)
      (m : ColumnMapping) (st : ParseStats) (dgs : List RowDiagnostic),
      parseGrid (header :: rest) = .success recs m st dgs → m.category = none →
      ∀ r ∈ recs, r.category = none := by
  refine ⟨?_, ?_, ?_, rfl, ?_⟩
  · intro hs hall
    have hnone : firstMatchFrom .date 0 hs = none :=
      firstMatchFrom_none hs 0 fun h hm hpr => by
        have hd := priorityRole_eq_date.mp hpr
        rw [hall h hm] at hd
        exact absurd hd (by simp)
    rw [classify_eq, hnone]
  · intro hs hex hall
    obtain ⟨vd, hvd⟩ := firstMatchFrom_isSome hs 0 hex
    have hnone : firstMatchFrom .amount 0 hs = none :=
      firstMatchFrom_none hs 0 fun h hm hpr => by
        have ha := priorityRole_amount_matches hpr
        rw [hall h hm] at ha
        exact absurd ha (by simp)
    rw [classify_eq, hvd, hnone]
  · intro hs hexd hexa hall
    obtain ⟨vd, hvd⟩ := firstMatchFrom_isSome hs 0 hexd
    obtain ⟨va, hva⟩ := firstMatchFrom_isSome hs 0 hexa
    have hnone : firstMatchFrom .merchant 0 hs = none :=
      firstMatchFrom_none hs 0 fun h hm hpr => by
        have hm2 := priorityRole_merchant_matches hpr
        rw [hall h hm] at hm2
        exact absurd hm2 (by simp)
    rw [classify_eq, hvd, hva, hnone]
  · intro header rest recs m st dgs h hcat r hr
    obtain ⟨-, h2, -, -⟩ := parseGrid_success_inv h
    have hr2 : r ∈ (preparedRows header rest).filterMap
        (fun row => (extractRow m row).toOption) := by
      rw [← processRows_fst, ← h2]; exact hr
    obtain ⟨row, hrow, hext⟩ := List.mem_filterMap.mp hr2
    obtain ⟨-, -, -, -, hcat2⟩ := extractRow_ok_inv (toOption_ok hext)
    rw [hcat2, hcat]
    rfl

/-- Witness for C5: the date clause applied to the example headers, and the
category clause applied to the three-row example (whose mapping has no
category column). -/
theorem missing_required_column_witness :
    classifyColumns ["Amount", "Description", "Memo"] =
      Except.error (.missingRequiredColumn .date) ∧
    (⟨⟨2023, 12, 25⟩, "AMAZON.COM", -4599, none⟩ : TransactionRecord).category = none := by
  constructor
  · exact missing_required_column.1 ["Amount", "Description", "Memo"] (by decide)
  · exact missing_required_column.2.2.2.2 ["Date", "Description", "Amount"]
      [["2023-12-25", "AMAZON.COM", "-45.99"],
       ["2023-12-24", "GROCERY STORE", ""],
       ["2023-12-23", "STORE", "10.00"]]
      [⟨⟨2023, 12, 25⟩, "AMAZON.COM", -4599, none⟩, ⟨⟨2023, 12, 23⟩, "STORE", 1000, none⟩]
      ⟨(0, "Date"), (2, "Amount"), (1, "Description"), none⟩ ⟨2, 1⟩
      [⟨1, ["2023-12-24", "GROCERY STORE", ""], .unparseableAmount⟩] rfl rfl
      ⟨⟨2023, 12, 25⟩, "AMAZON.COM", -4599, none⟩ (by decide)

end PersoniFi
